import Mathlib

/-!
Verification of the `yarn add` command core (src/cli/commands/add.js).

The embedding is shallow: the decision logic of the `Add` class is translated
into pure Lean functions.  External collaborators that live outside the
provided source slice (the pattern normalizer, the exotic-specifier
classifier `getExoticResolver`, and the semver engine `semver.satisfies`)
are abstracted as fields of an `Env` record; theorems about code paths that
consult them take the collaborator's answer as a hypothesis.  Stateful
manifest mutation in `savePackages` is modelled by explicit state passing
over a functional manifest store, and reporter warnings are accumulated in a
list.  Control flow that only sequences opaque collaborator calls (`init`,
`run`) is modelled as an effect trace: the list of collaborator steps
performed before returning, together with an optional thrown message key.
-/

namespace YarnAdd

/-- Result of `normalizePattern(pattern)` (util/normalize-pattern.js):
the parsed name, the range part, and whether a version range was present. -/
structure NormalizeResult where
  name : String
  range : String
  hasVersion : Bool

/-- The resolved package a pattern maps to: `pkg.name`, `pkg.version`, and
the registry of `pkg._reference` (types.js `Manifest`, read-only here). -/
structure Manifest where
  name : String
  version : String
  registry : String

/-- External collaborators consulted by `getPatternVersion`:
`getExoticResolver` (truthiness of the returned resolver class),
`semver.satisfies(version, range)`, and `normalizePattern`. -/
structure Env where
  getExoticResolver : String → Bool
  satisfies : String → String → Bool
  normalizePattern : String → NormalizeResult

/-- The boolean command flags of `yarn add` (setFlags in add.js). -/
structure Flags where
  dev : Bool := false
  optional : Bool := false
  peer : Bool := false
  exact : Bool := false
  tilde : Bool := false
  ignoreWorkspaceRootCheck : Bool := false

/-- The two configuration options read by `getPatternVersion`:
`String(config.getOption('save-prefix'))` and
`Boolean(config.getOption('save-exact'))`. -/
structure Config where
  savePrefix : String
  saveExact : Bool

/-- The guard of the verbatim-echo branch of `getPatternVersion`:
`hasVersion && range && (semver.satisfies(pkg.version, range) || getExoticResolver(range))`
(JS truthiness of the string `range` is nonemptiness). -/
def echoes (env : Env) (pattern : String) (pkg : Manifest) : Bool :=
  let n := env.normalizePattern pattern
  n.hasVersion && !n.range.isEmpty &&
    (env.satisfies pkg.version n.range || env.getExoticResolver n.range)

/-- `Add.getPatternVersion(pattern, pkg)` (add.js lines 61-87): exotic
patterns are returned verbatim; a satisfied or exotic user range is echoed;
otherwise a prefix chosen from the tilde/exact/save-prefix policy is glued
onto the resolved concrete version.  `exact` is
`flags.exact || Boolean(save-exact) || configPrefix === ''`, and the final
fallback is `configPrefix || '^'`. -/
def getPatternVersion (env : Env) (flags : Flags) (config : Config)
    (pattern : String) (pkg : Manifest) : String :=
  let tilde := flags.tilde
  let configPfx := config.savePrefix
  let exact := flags.exact || config.saveExact || configPfx.isEmpty
  let n := env.normalizePattern pattern
  if env.getExoticResolver pattern then
    pattern
  else if echoes env pattern pkg then
    n.range
  else
    let pfx := if tilde then "~" else if exact then "" else
      (if configPfx.isEmpty then "^" else configPfx)
    pfx ++ pkg.version

/-- The prefix policy as the specification states it, first match wins:
`~` when tilde is set; the empty string when the exact flag is set, or the
save-exact option is set, or the configured save-prefix is empty; else the
configured save-prefix when non-empty; else `^`. -/
def specPrefixPolicy (tilde exact saveExact : Bool) (savePfx : String) : String :=
  if tilde then "~"
  else if exact || saveExact || savePfx.isEmpty then ""
  else if !savePfx.isEmpty then savePfx
  else "^"

/-- `this.flagToOrigin` as computed in the `Add` constructor (add.js lines
27-34): the first truthy entry of
`[dev && 'devDependencies', optional && 'optionalDependencies', peer && 'peerDependencies', 'dependencies']`. -/
def flagToOrigin (flags : Flags) : String :=
  if flags.dev then "devDependencies"
  else if flags.optional then "optionalDependencies"
  else if flags.peer then "peerDependencies"
  else "dependencies"

/-- The integrity checker's answer, as far as `bailout` reads it:
the `integrityFileMissing` field of `match`. -/
structure IntegrityMatch where
  integrityFileMissing : Bool

/-- Outcome of `Add.bailout`: the returned boolean, and whether
`this.scripts.setForce(true)` was invoked as a side effect. -/
structure BailoutOutcome where
  result : Bool
  forceScripts : Bool

/-- `Add.bailout(patterns, workspaceLayout)` (add.js lines 106-118),
with the lockfile cache, the integrity-check result, and the on-disk
lockfile existence as inputs: returns `false` immediately when no cache is
present, otherwise forces scripts when the integrity file is missing while
a lockfile exists on disk, and returns `false` again. -/
def bailout {α : Type} (lockfileCache : Option α) (m : IntegrityMatch)
    (haveLockfile : Bool) : BailoutOutcome :=
  match lockfileCache with
  | none => ⟨false, false⟩
  | some _ => ⟨false, m.integrityFileMissing && haveLockfile⟩

/-- One registry manifest's mutable `object`, as `savePackages` touches it:
a map from dependency-origin section and package name to the recorded
version spec (`none` when the name is absent from that section). -/
abbrev ManifestObject := String → String → Option String

/-- `await this.config.getRootManifests()`: one manifest object per
registry identifier. -/
abbrev RootManifests := String → ManifestObject

/-- The `depType` lookup in `savePackages` (add.js lines 183-189):
`patternOrigins.reduce(...)` keeps, over the keys of
`rootPatternsToOrigin` in order, the origin of the last key for which
`prev.indexOf(pkg.name + \"@\") === 0`, starting from `null`.  The prefix
test is expressed over the character lists so that concrete instances
reduce in the kernel. -/
def depTypeFor (patternOrigins : List (String × String)) (nm : String) :
    Option String :=
  patternOrigins.foldl
    (fun acc e =>
      if (nm ++ "@").data.isPrefixOf e.1.data then some e.2 else acc) none

/-- `const target = depType || this.flagToOrigin` with JS truthiness:
a `null` or empty `depType` falls back to the flag-selected origin. -/
def targetOf (flags : Flags) (patternOrigins : List (String × String))
    (nm : String) : String :=
  match depTypeFor patternOrigins nm with
  | some d => if d.isEmpty then flagToOrigin flags else d
  | none => flagToOrigin flags

/-- State threaded through the `savePackages` loop: the manifest objects
being mutated in place, and the conflict warnings emitted so far (package
name, existing origin, requested origin). -/
structure MergeState where
  manifests : RootManifests
  warnings : List (String × String × String)

/-- One iteration of the `savePackages` loop (add.js lines 176-202) for a
single added pattern: resolve the package, recompute its version spec,
pick the target section (existing classification wins over
`this.flagToOrigin`), write `object[target][pkg.name] = version` into the
manifest of the package's registry, and warn when the target differs from
the requested origin. -/
def savePattern (env : Env) (flags : Flags) (config : Config)
    (patternOrigins : List (String × String)) (resolve : String → Manifest)
    (st : MergeState) (pattern : String) : MergeState :=
  let pkg := resolve pattern
  let version := getPatternVersion env flags config pattern pkg
  let target := targetOf flags patternOrigins pkg.name
  let manifests : RootManifests := fun reg origin nm =>
    if reg = pkg.registry ∧ origin = target ∧ nm = pkg.name then some version
    else st.manifests reg origin nm
  let warnings :=
    if target ≠ flagToOrigin flags then
      st.warnings ++ [(pkg.name, target, flagToOrigin flags)]
    else st.warnings
  ⟨manifests, warnings⟩

/-- `Add.savePackages()` (add.js lines 167-205): fold the per-pattern merge
step over `this.addedPatterns`, starting from the loaded root manifests and
no warnings.  `resolve` stands for `this.resolver.getResolvedPattern`,
which the source asserts to succeed for every added pattern. -/
def savePackages (env : Env) (flags : Flags) (config : Config)
    (patternOrigins : List (String × String)) (resolve : String → Manifest)
    (addedPatterns : List String) (manifests : RootManifests) : MergeState :=
  addedPatterns.foldl (savePattern env flags config patternOrigins resolve)
    ⟨manifests, []⟩

/-- The configuration read by the workspace-root guard of `Add.init`:
`this.config.workspaceRootFolder` (possibly unset) and `this.config.cwd`. -/
structure InitConfig where
  workspaceRootFolder : Option String
  cwd : String

/-- `Add.init()` (add.js lines 124-132), modelled as an effect trace: when
`cwd` is the workspace root folder and the ignore flag is unset, a
`MessageError('workspacesAddRootCheck')` is thrown with no step performed;
otherwise the body runs: reset `addedPatterns`, the inherited install
pipeline, the save-tree output, and `savePackages`. -/
def init (cfg : InitConfig) (flags : Flags) : List String × Option String :=
  let isWorkspaceRoot :=
    match cfg.workspaceRootFolder with
    | some w => cfg.cwd == w
    | none => false
  if isWorkspaceRoot && !flags.ignoreWorkspaceRootCheck then
    ([], some "workspacesAddRootCheck")
  else
    (["resetAddedPatterns", "installInit", "maybeOutputSaveTree",
      "savePackages"], none)

/-- The exported `run` function (add.js lines 222-232), modelled as an
effect trace: with no package arguments it throws
`MessageError('missingAddDependencies')` before any step; otherwise it
reads the lockfile, wraps the lifecycle, constructs the `Add` instance and
runs `init`. -/
def run (args : List String) : List String × Option String :=
  if args.length = 0 then ([], some "missingAddDependencies")
  else (["lockfileFromDirectory", "wrapLifecycle", "constructAdd", "init"],
    none)

/-- Splits a character list at its first `@`, returning the parts before
and after it, or `none` when no `@` occurs. -/
def splitAtAt (l : List Char) : Option (List Char × List Char) :=
  match l with
  | [] => none
  | c :: cs =>
    if c = '@' then some ([], cs)
    else (splitAtAt cs).map (fun q => (c :: q.1, q.2))

/-- Modelled from the spec: the pattern normalizer of the data model,
"a `name` optionally followed by `@range`" — used only to instantiate the
abstract `Env.normalizePattern` collaborator in concrete witnesses.
Splits at the first `@`; an absent or empty range yields
`hasVersion = false`, mirroring the `latest` and `*` defaults. -/
def normalizePatternModel (pattern : String) : NormalizeResult :=
  match splitAtAt pattern.data with
  | none => ⟨pattern, "latest", false⟩
  | some (n, r) =>
    if r.isEmpty then ⟨String.mk n, "*", false⟩
    else ⟨String.mk n, String.mk r, true⟩

/-- Option choice mirroring a JS overwrite: `orO a b` is `a` when present,
else `b`.  Used to state which assignment a manifest cell ends up with. -/
def orO (a b : Option String) : Option String :=
  match a with
  | some v => some v
  | none => b

/-- The single manifest-cell assignment performed by one `savePackages`
iteration for pattern `p`: `some version` at the cell addressed by the
package's registry, target section, and name, `none` at every other cell. -/
def writeCell (env : Env) (flags : Flags) (config : Config)
    (patternOrigins : List (String × String)) (resolve : String → Manifest)
    (p : String) (reg o nm : String) : Option String :=
  let pkg := resolve p
  if reg = pkg.registry ∧ o = targetOf flags patternOrigins pkg.name
      ∧ nm = pkg.name then
    some (getPatternVersion env flags config p pkg)
  else none

/-- The last assignment a `savePackages` run over `addedPatterns` makes to
a given manifest cell, if any; later patterns in the list override earlier
ones, exactly as later loop iterations overwrite `object[target][name]`. -/
def lastWrite (env : Env) (flags : Flags) (config : Config)
    (patternOrigins : List (String × String)) (resolve : String → Manifest)
    (L : List String) (reg o nm : String) : Option String :=
  L.foldl
    (fun acc p =>
      orO (writeCell env flags config patternOrigins resolve p reg o nm) acc)
    none

/-! Concrete instances used by the witnesses. -/

/-- A concrete resolved package for witnesses. -/
def pkgLodash : Manifest := ⟨"lodash", "4.17.21", "npm"⟩

/-- A concrete configuration with the default caret save-prefix. -/
def configCaret : Config := ⟨"^", false⟩

/-- Flags with nothing set. -/
def flagsNone : Flags := {}

/-- A concrete collaborator environment for witnesses: `file:` specifiers
are exotic, a toy semver engine accepting exactly the tilde and caret
ranges around a version, and the spec-modelled normalizer. -/
def envW : Env where
  getExoticResolver := fun p => "file:".data.isPrefixOf p.data
  satisfies := fun v r => r == "~" ++ v || r == "^" ++ v
  normalizePattern := normalizePatternModel

/-- A concrete pattern-origin index for witnesses: `lodash` is already
recorded under `devDependencies`. -/
def poW : List (String × String) := [("lodash@^1.0.0", "devDependencies")]

/-- A concrete resolver view for witnesses: every pattern resolves to the
lodash package. -/
def resolveW : String → Manifest := fun _ => pkgLodash

/-- Concrete initially empty root manifests for witnesses. -/
def m0W : RootManifests := fun _ _ _ => none

/-! ## Theorems -/

/-- C4: for every pattern classified as an exotic specifier,
`getPatternVersion` returns the pattern string itself unchanged, for all
values of the tilde, exact, and configured-prefix options and for every
resolved package. -/
theorem getPatternVersion_exotic_verbatim (env : Env) (flags : Flags)
    (config : Config) (pattern : String) (pkg : Manifest)
    (h : env.getExoticResolver pattern = true) :
    getPatternVersion env flags config pattern pkg = pattern := by
  simp [getPatternVersion, h]

/-- Witness for C4 at the concrete exotic pattern `file:./lib`. -/
theorem getPatternVersion_exotic_verbatim_witness :
    getPatternVersion envW flagsNone configCaret "file:./lib" pkgLodash
      = "file:./lib" :=
  getPatternVersion_exotic_verbatim envW flagsNone configCaret "file:./lib"
    pkgLodash (by decide)

/-- C3: for every non-exotic `name@range` pattern whose range the resolved
concrete version satisfies, or whose range is itself exotic,
`getPatternVersion` echoes the user's range verbatim, regardless of the
tilde, exact, and configured-prefix options. -/
theorem getPatternVersion_echoes_range (env : Env) (flags : Flags)
    (config : Config) (pattern : String) (pkg : Manifest)
    (hne : env.getExoticResolver pattern = false)
    (hv : (env.normalizePattern pattern).hasVersion = true)
    (hr : (env.normalizePattern pattern).range.isEmpty = false)
    (hs : env.satisfies pkg.version (env.normalizePattern pattern).range = true
        ∨ env.getExoticResolver (env.normalizePattern pattern).range = true) :
    getPatternVersion env flags config pattern pkg
      = (env.normalizePattern pattern).range := by
  have hech : echoes env pattern pkg = true := by
    rcases hs with h | h <;> simp [echoes, hv, hr, h]
  simp [getPatternVersion, hne, hech]

/-- Witness for C3 at `lodash@^4.17.21` with `--exact` set: the range is
still echoed verbatim. -/
theorem getPatternVersion_echoes_range_witness :
    getPatternVersion envW { exact := true } configCaret "lodash@^4.17.21"
      pkgLodash = "^4.17.21" :=
  getPatternVersion_echoes_range envW { exact := true } configCaret
    "lodash@^4.17.21" pkgLodash (by decide) (by decide) (by decide)
    (Or.inl (by decide))

/-- C2: for every non-exotic pattern that does not hit the verbatim-echo
branch, `getPatternVersion` synthesizes prefix-plus-resolved-version with
the prefix chosen by first match — `~` for tilde; the empty string when
the exact flag, the save-exact option, or an empty configured save-prefix
requests exact; else the non-empty configured save-prefix; else `^` — and
in particular tilde wins over exact, so the result then starts with `~`. -/
theorem getPatternVersion_synthesized_spec (env : Env) (flags : Flags)
    (config : Config) (pattern : String) (pkg : Manifest)
    (hne : env.getExoticResolver pattern = false)
    (hech : echoes env pattern pkg = false) :
    getPatternVersion env flags config pattern pkg
      = specPrefixPolicy flags.tilde flags.exact config.saveExact
          config.savePrefix ++ pkg.version
    ∧ (flags.tilde = true →
        ∃ rest,
          getPatternVersion env flags config pattern pkg = "~" ++ rest) := by
  have hmain : getPatternVersion env flags config pattern pkg =
      (if flags.tilde then "~"
       else if flags.exact || config.saveExact || config.savePrefix.isEmpty
         then ""
       else if config.savePrefix.isEmpty then "^" else config.savePrefix)
        ++ pkg.version := by
    simp [getPatternVersion, hne, hech]
  constructor
  · rw [hmain]
    cases ht : flags.tilde
    · cases he : (flags.exact || config.saveExact || config.savePrefix.isEmpty)
      · have he' := he
        simp only [Bool.or_eq_false_iff] at he'
        obtain ⟨⟨hex, hsx⟩, hp⟩ := he'
        simp [specPrefixPolicy, ht, he, hex, hsx, hp]
      · simp [specPrefixPolicy, ht, he]
    · simp [specPrefixPolicy, ht]
  · intro ht
    exact ⟨pkg.version, by rw [hmain]; simp [ht]⟩

/-- Witness for C2 with both tilde and exact set on a rangeless pattern:
the synthesized spec is `~4.17.21`, so tilde won. -/
theorem getPatternVersion_synthesized_spec_witness :
    getPatternVersion envW { tilde := true, exact := true } configCaret
      "lodash" pkgLodash
      = specPrefixPolicy true true false "^" ++ "4.17.21" :=
  (getPatternVersion_synthesized_spec envW { tilde := true, exact := true }
    configCaret "lodash" pkgLodash (by decide) (by decide)).1

/-- C6: `bailout` always returns `false` — immediately without a lockfile
cache, and after the integrity check otherwise — and sets the force-scripts
side effect exactly when a cache is present, the integrity file is
reported missing, and a lockfile exists on disk. -/
theorem bailout_always_false {α : Type} (cache : Option α)
    (m : IntegrityMatch) (haveLockfile : Bool) :
    (bailout cache m haveLockfile).result = false
    ∧ (bailout cache m haveLockfile).forceScripts
        = (cache.isSome && m.integrityFileMissing && haveLockfile) := by
  cases cache <;> simp [bailout]

/-- C9: with at most one of the dev, optional, and peer flags set, the
origin selected once in the constructor is `devDependencies` for dev,
`optionalDependencies` for optional, `peerDependencies` for peer, and
`dependencies` when none of the three is set; `savePackages` then uses
this single `flagToOrigin` value as the requested target for every added
package. -/
theorem flagToOrigin_selection (flags : Flags)
    (h1 : flags.dev = true → flags.optional = false ∧ flags.peer = false)
    (h2 : flags.optional = true → flags.peer = false) :
    (flags.dev = true → flagToOrigin flags = "devDependencies")
    ∧ (flags.optional = true → flagToOrigin flags = "optionalDependencies")
    ∧ (flags.peer = true → flagToOrigin flags = "peerDependencies")
    ∧ (flags.dev = false → flags.optional = false → flags.peer = false →
        flagToOrigin flags = "dependencies") := by
  refine ⟨?_, ?_, ?_, ?_⟩
  · intro h; simp [flagToOrigin, h]
  · intro h
    have hd : flags.dev = false := by
      cases hdev : flags.dev
      · rfl
      · rw [(h1 hdev).1] at h; exact absurd h (by simp)
    simp [flagToOrigin, hd, h]
  · intro h
    have hd : flags.dev = false := by
      cases hdev : flags.dev
      · rfl
      · rw [(h1 hdev).2] at h; exact absurd h (by simp)
    have ho : flags.optional = false := by
      cases hopt : flags.optional
      · rfl
      · rw [h2 hopt] at h; exact absurd h (by simp)
    simp [flagToOrigin, hd, ho, h]
  · intro hd ho hp; simp [flagToOrigin, hd, ho, hp]

/-- Witness for C9 at `--dev`: the selected origin is `devDependencies`. -/
theorem flagToOrigin_selection_witness :
    flagToOrigin { dev := true } = "devDependencies" :=
  (flagToOrigin_selection { dev := true } (by decide) (by decide)).1 rfl

/-- C8: invoking add with the working directory equal to the workspace
root folder and without the ignore-workspace-root-check flag throws the
localized `workspacesAddRootCheck` message error before any step of the
pipeline runs, leaving added-patterns state and manifests untouched. -/
theorem init_workspace_root_guard (cfg : InitConfig) (flags : Flags)
    (w : String) (hw : cfg.workspaceRootFolder = some w) (hc : cfg.cwd = w)
    (hf : flags.ignoreWorkspaceRootCheck = false) :
    init cfg flags = ([], some "workspacesAddRootCheck") := by
  simp [init, hw, hc, hf]

/-- Witness for C8 at a concrete workspace-root configuration. -/
theorem init_workspace_root_guard_witness :
    init ⟨some "/ws", "/ws"⟩ flagsNone = ([], some "workspacesAddRootCheck") :=
  init_workspace_root_guard ⟨some "/ws", "/ws"⟩ flagsNone "/ws" rfl rfl rfl

/-- C5: recomputation stability: for a pattern `p` with resolved package
`pkg` and `v = getPatternVersion p pkg`, the Merger's recomputation of
`getPatternVersion` on the canonical pattern `pkg.name@v` built by
`preparePatterns` returns the identical string `v`.  The hypotheses record
the collaborator contracts at the canonical pattern: it is not itself
exotic, and the normalizer parses it back into a name/range pair whose
range is `v` (nonempty). -/
theorem getPatternVersion_recompute_stable (env : Env) (flags : Flags)
    (config : Config) (pattern : String) (pkg : Manifest) (v : String)
    (hv : v = getPatternVersion env flags config pattern pkg)
    (hvne : v.isEmpty = false)
    (hne : env.getExoticResolver (pkg.name ++ "@" ++ v) = false)
    (hn : (env.normalizePattern (pkg.name ++ "@" ++ v)).hasVersion = true)
    (hr : (env.normalizePattern (pkg.name ++ "@" ++ v)).range = v) :
    getPatternVersion env flags config (pkg.name ++ "@" ++ v) pkg = v := by
  by_cases h1 : env.getExoticResolver pattern = true
  · have hvp : v = pattern := by rw [hv]; simp [getPatternVersion, h1]
    have hech : echoes env (pkg.name ++ "@" ++ v) pkg = true := by
      have hx : env.getExoticResolver v = true := by rw [hvp]; exact h1
      simp [echoes, hn, hr, hvne, hx]
    simp [getPatternVersion, hne, hech, hr]
  · have h1' : env.getExoticResolver pattern = false := by
      simpa using h1
    by_cases h2 : echoes env pattern pkg = true
    · have hvr : v = (env.normalizePattern pattern).range := by
        rw [hv]; simp [getPatternVersion, h1', h2]
      have hd : env.satisfies pkg.version v = true
          ∨ env.getExoticResolver v = true := by
        have h2' := h2
        simp only [echoes, Bool.and_eq_true, Bool.or_eq_true] at h2'
        rw [hvr]
        exact h2'.2
      have hech : echoes env (pkg.name ++ "@" ++ v) pkg = true := by
        rcases hd with h | h <;> simp [echoes, hn, hr, hvne, h]
      simp [getPatternVersion, hne, hech, hr]
    · have h2' : echoes env pattern pkg = false := by simpa using h2
      have hvs : v =
          (if flags.tilde then "~"
           else if flags.exact || config.saveExact || config.savePrefix.isEmpty
             then ""
           else if config.savePrefix.isEmpty then "^" else config.savePrefix)
            ++ pkg.version := by
        rw [hv]; simp [getPatternVersion, h1', h2']
      by_cases h3 : echoes env (pkg.name ++ "@" ++ v) pkg = true
      · simp [getPatternVersion, hne, h3, hr]
      · have h3' : echoes env (pkg.name ++ "@" ++ v) pkg = false := by
          simpa using h3
        simp [getPatternVersion, hne, h3']
        rw [hvs]
        simp
/-- Witness for C5: adding `lodash` with default flags synthesizes
`^4.17.21`; recomputing on `lodash@^4.17.21` returns `^4.17.21` again. -/
theorem getPatternVersion_recompute_stable_witness :
    getPatternVersion envW flagsNone configCaret ("lodash" ++ "@" ++ "^4.17.21")
      pkgLodash = "^4.17.21" :=
  getPatternVersion_recompute_stable envW flagsNone configCaret "lodash"
    pkgLodash "^4.17.21" (by decide) (by decide) (by decide) (by decide)
    (by decide)

/-- C10: running the add command with an empty argument list throws the
`missingAddDependencies` message error before the lockfile is read and
before any `Add` instance is constructed: the effect trace is empty. -/
theorem run_missing_args :
    run ([] : List String) = ([], some "missingAddDependencies") := rfl

/-- One `savePackages` iteration changes a manifest cell exactly when its
`writeCell` assignment addresses that cell. -/
theorem savePattern_manifests (env : Env) (flags : Flags) (config : Config)
    (po : List (String × String)) (resolve : String → Manifest)
    (st : MergeState) (p : String) (reg o nm : String) :
    (savePattern env flags config po resolve st p).manifests reg o nm
      = orO (writeCell env flags config po resolve p reg o nm)
          (st.manifests reg o nm) := by
  by_cases hc : reg = (resolve p).registry
      ∧ o = targetOf flags po (resolve p).name ∧ nm = (resolve p).name
  · simp [savePattern, writeCell, orO, hc]
  · simp [savePattern, writeCell, orO, hc]

/-- Folding `orO`-accumulation from any start equals folding from `none`
and then falling back to the start. -/
theorem foldl_orO (w : String → Option String) (L : List String)
    (acc : Option String) :
    L.foldl (fun a p => orO (w p) a) acc
      = orO (L.foldl (fun a p => orO (w p) a) none) acc := by
  induction L generalizing acc with
  | nil => rfl
  | cons p L ih =>
    simp only [List.foldl_cons]
    rw [ih (orO (w p) acc), ih (orO (w p) none)]
    cases L.foldl (fun a p => orO (w p) a) none <;> cases w p <;> rfl

/-- `lastWrite` over a cons: the tail's last assignment overrides the
head's. -/
theorem lastWrite_cons (env : Env) (flags : Flags) (config : Config)
    (po : List (String × String)) (resolve : String → Manifest)
    (p : String) (L : List String) (reg o nm : String) :
    lastWrite env flags config po resolve (p :: L) reg o nm
      = orO (lastWrite env flags config po resolve L reg o nm)
          (writeCell env flags config po resolve p reg o nm) := by
  simp only [lastWrite, List.foldl_cons]
  rw [foldl_orO]
  cases writeCell env flags config po resolve p reg o nm <;> rfl

/-- Pointwise characterization of the merge loop: each manifest cell holds
the last assignment made to it, falling back to the starting state. -/
theorem savePackages_manifests_pointwise (env : Env) (flags : Flags)
    (config : Config) (po : List (String × String))
    (resolve : String → Manifest) (L : List String) :
    ∀ (st : MergeState) (reg o nm : String),
      (L.foldl (savePattern env flags config po resolve) st).manifests reg o nm
        = orO (lastWrite env flags config po resolve L reg o nm)
            (st.manifests reg o nm) := by
  induction L with
  | nil => intro st reg o nm; rfl
  | cons p L ih =>
    intro st reg o nm
    simp only [List.foldl_cons]
    rw [ih, savePattern_manifests, lastWrite_cons]
    cases lastWrite env flags config po resolve L reg o nm <;>
      cases writeCell env flags config po resolve p reg o nm <;> rfl

/-- C7: merger idempotence: running `savePackages` twice with the same
added-patterns list, the same resolved packages, and an unchanged
pattern-origin index yields identical manifest content — every cell of the
second run's manifests equals the first run's. -/
theorem savePackages_idempotent (env : Env) (flags : Flags) (config : Config)
    (po : List (String × String)) (resolve : String → Manifest)
    (L : List String) (m : RootManifests) (reg o nm : String) :
    (savePackages env flags config po resolve L
        (savePackages env flags config po resolve L m).manifests).manifests
        reg o nm
      = (savePackages env flags config po resolve L m).manifests reg o nm := by
  have hpt : ∀ (m' : RootManifests) (reg o nm : String),
      (savePackages env flags config po resolve L m').manifests reg o nm
        = orO (lastWrite env flags config po resolve L reg o nm)
            (m' reg o nm) := by
    intro m' reg o nm
    exact savePackages_manifests_pointwise env flags config po resolve L
      ⟨m', []⟩ reg o nm
  rw [hpt, hpt]
  cases lastWrite env flags config po resolve L reg o nm <;> rfl

/-- The `reduce` in the `depType` lookup, from an arbitrary accumulator:
when every matching index entry classifies under `d`, the fold returns
`some d` as soon as one entry matches, and the accumulator when none
does. -/
theorem depTypeFor_aux (nm d : String) (po : List (String × String)) :
    ∀ acc : Option String,
      (∀ e ∈ po, ((nm ++ "@").data.isPrefixOf e.1.data) = true → e.2 = d) →
      ((∃ e ∈ po, ((nm ++ "@").data.isPrefixOf e.1.data) = true) →
        po.foldl
          (fun acc e =>
            if (nm ++ "@").data.isPrefixOf e.1.data then some e.2 else acc)
          acc = some d)
      ∧ ((∀ e ∈ po, ((nm ++ "@").data.isPrefixOf e.1.data) = false) →
        po.foldl
          (fun acc e =>
            if (nm ++ "@").data.isPrefixOf e.1.data then some e.2 else acc)
          acc = acc) := by
  induction po with
  | nil =>
    intro acc _
    exact ⟨fun hex => absurd hex (by simp), fun _ => rfl⟩
  | cons e po ih =>
    intro acc hall
    have hall' : ∀ e' ∈ po,
        ((nm ++ "@").data.isPrefixOf e'.1.data) = true → e'.2 = d :=
      fun e' he' => hall e' (List.mem_cons_of_mem _ he')
    by_cases hm : ((nm ++ "@").data.isPrefixOf e.1.data) = true
    · have hed : e.2 = d := hall e (List.mem_cons_self _ _) hm
      constructor
      · intro _
        simp only [List.foldl_cons, hm, if_true]
        by_cases hex : ∃ e' ∈ po, ((nm ++ "@").data.isPrefixOf e'.1.data) = true
        · exact (ih (some e.2) hall').1 hex
        · have hforall : ∀ e' ∈ po,
              ((nm ++ "@").data.isPrefixOf e'.1.data) = false := by
            intro e' he'
            cases hcase : ((nm ++ "@").data.isPrefixOf e'.1.data)
            · rfl
            · exact absurd ⟨e', he', hcase⟩ hex
          rw [(ih (some e.2) hall').2 hforall, hed]
      · intro hnone
        have := hnone e (List.mem_cons_self _ _)
        rw [hm] at this
        cases this
    · have hm' : ((nm ++ "@").data.isPrefixOf e.1.data) = false := by
        cases hcase : ((nm ++ "@").data.isPrefixOf e.1.data)
        · rfl
        · exact absurd hcase hm
      constructor
      · intro hex
        rcases hex with ⟨e', he', hp⟩
        rcases List.mem_cons.mp he' with rfl | hmem
        · rw [hp] at hm'; cases hm'
        · simp only [List.foldl_cons, hm', Bool.false_eq_true, if_false]
          exact (ih acc hall').1 ⟨e', hmem, hp⟩
      · intro hforall
        simp only [List.foldl_cons, hm', Bool.false_eq_true, if_false]
        exact (ih acc hall').2
          (fun e' he' => hforall e' (List.mem_cons_of_mem _ he'))

/-- When the pattern-origin index has a matching entry for `nm` and every
matching entry classifies under the same non-empty origin `d`, the target
section chosen by `savePackages` is `d`. -/
theorem targetOf_consistent (flags : Flags) (po : List (String × String))
    (nm d : String) (hdne : d.isEmpty = false)
    (hex : ∃ e ∈ po, ((nm ++ "@").data.isPrefixOf e.1.data) = true)
    (hall : ∀ e ∈ po, ((nm ++ "@").data.isPrefixOf e.1.data) = true →
        e.2 = d) :
    targetOf flags po nm = d := by
  have hd : depTypeFor po nm = some d :=
    (depTypeFor_aux nm d po none hall).1 hex
  simp [targetOf, hd, hdne]

/-- Merge iterations for patterns resolving to other names neither touch
the manifest cells of name `nm` nor emit warnings mentioning `nm`. -/
theorem merge_untouched (env : Env) (flags : Flags) (config : Config)
    (po : List (String × String)) (resolve : String → Manifest)
    (nm : String) (L : List String) :
    ∀ st : MergeState,
      (∀ q ∈ L, (resolve q).name ≠ nm) →
      (∀ reg o,
        (L.foldl (savePattern env flags config po resolve) st).manifests
            reg o nm
          = st.manifests reg o nm)
      ∧ (L.foldl (savePattern env flags config po resolve) st).warnings.filter
            (fun w => w.1 == nm)
          = st.warnings.filter (fun w => w.1 == nm) := by
  induction L with
  | nil => intro st _; exact ⟨fun reg o => rfl, rfl⟩
  | cons p L ih =>
    intro st h
    have hp : (resolve p).name ≠ nm := h p (List.mem_cons_self _ _)
    have hrest : ∀ q ∈ L, (resolve q).name ≠ nm :=
      fun q hq => h q (List.mem_cons_of_mem _ hq)
    simp only [List.foldl_cons]
    obtain ⟨h1, h2⟩ := ih (savePattern env flags config po resolve st p) hrest
    refine ⟨fun reg o => ?_, ?_⟩
    · rw [h1]
      have hc : ¬(reg = (resolve p).registry
          ∧ o = targetOf flags po (resolve p).name
          ∧ nm = (resolve p).name) := by
        rintro ⟨-, -, hnm⟩; exact hp hnm.symm
      simp [savePattern, hc]
    · rw [h2]
      have hb : ((resolve p).name == nm) = false :=
        beq_eq_false_iff_ne.mpr hp
      by_cases ht : targetOf flags po (resolve p).name = flagToOrigin flags
      · simp [savePattern, ht]
      · simp [savePattern, ht, List.filter_append, hb]

/-- Tracking one added pattern `p` through the merge loop when the added
packages have pairwise distinct names: `p`'s cell receives its recomputed
version spec under the target section, no other section's cell of that
name is changed, and exactly one conflict warning for that name is
appended when the target differs from the requested origin. -/
theorem merge_tracks (env : Env) (flags : Flags) (config : Config)
    (po : List (String × String)) (resolve : String → Manifest)
    (L : List String) :
    ∀ (st : MergeState) (p : String), p ∈ L →
      (L.map fun q => (resolve q).name).Nodup →
      ((L.foldl (savePattern env flags config po resolve) st).manifests
          (resolve p).registry (targetOf flags po (resolve p).name)
          (resolve p).name
        = some (getPatternVersion env flags config p (resolve p)))
      ∧ (∀ o, o ≠ targetOf flags po (resolve p).name →
          (L.foldl (savePattern env flags config po resolve) st).manifests
              (resolve p).registry o (resolve p).name
            = st.manifests (resolve p).registry o (resolve p).name)
      ∧ (L.foldl (savePattern env flags config po resolve) st).warnings.filter
            (fun w => w.1 == (resolve p).name)
          = st.warnings.filter (fun w => w.1 == (resolve p).name)
            ++ (if targetOf flags po (resolve p).name = flagToOrigin flags
                then []
                else [((resolve p).name, targetOf flags po (resolve p).name,
                  flagToOrigin flags)]) := by
  induction L with
  | nil => intro st p hp; exact absurd hp (List.not_mem_nil p)
  | cons q L ih =>
    intro st p hp hnd
    rw [List.map_cons] at hnd
    have hq_notin : (resolve q).name ∉ L.map fun q' => (resolve q').name :=
      (List.nodup_cons.mp hnd).1
    have hnd' : (L.map fun q' => (resolve q').name).Nodup :=
      (List.nodup_cons.mp hnd).2
    rcases List.mem_cons.mp hp with rfl | hpL
    · have huntouched : ∀ q' ∈ L, (resolve q').name ≠ (resolve p).name := by
        intro q' hq' heq
        exact hq_notin (by rw [← heq]; exact List.mem_map_of_mem _ hq')
      obtain ⟨hU1, hU2⟩ := merge_untouched env flags config po resolve
        (resolve p).name L
        (savePattern env flags config po resolve st p) huntouched
      simp only [List.foldl_cons]
      refine ⟨?_, fun o ho => ?_, ?_⟩
      · rw [hU1]
        simp [savePattern]
      · rw [hU1]
        have hc : ¬((resolve p).registry = (resolve p).registry
            ∧ o = targetOf flags po (resolve p).name
            ∧ (resolve p).name = (resolve p).name) := by
          rintro ⟨-, h, -⟩; exact ho h
        simp [savePattern, hc]
        exact fun h => absurd h ho
      · rw [hU2]
        by_cases ht : targetOf flags po (resolve p).name = flagToOrigin flags
        · simp [savePattern, ht]
        · simp [savePattern, ht, List.filter_append]
    · have hqname : (resolve q).name ≠ (resolve p).name := by
        intro heq
        exact hq_notin (by rw [heq]; exact List.mem_map_of_mem _ hpL)
      simp only [List.foldl_cons]
      obtain ⟨hA, hB, hC⟩ :=
        ih (savePattern env flags config po resolve st q) p hpL hnd'
      refine ⟨hA, fun o ho => ?_, ?_⟩
      · rw [hB o ho]
        have hc : ¬((resolve p).registry = (resolve q).registry
            ∧ o = targetOf flags po (resolve q).name
            ∧ (resolve p).name = (resolve q).name) := by
          rintro ⟨-, -, h⟩; exact hqname h.symm
        simp [savePattern, hc]
      · rw [hC]
        have hb : ((resolve q).name == (resolve p).name) = false :=
          beq_eq_false_iff_ne.mpr hqname
        by_cases ht : targetOf flags po (resolve q).name = flagToOrigin flags
        · simp [savePattern, ht]
        · simp [savePattern, ht, List.filter_append, hb]

/-- C1: after merging, an added package's name appears under exactly one
dependency-origin section of its registry's manifest.  With `eff` the
target section `savePackages` computes from the pattern-origin index
(`targetOf`), its cell holds the recomputed version spec, every other
section's cell of that name holds nothing, and the conflict warning naming
the package, the existing origin `eff`, and the requested origin
`flagToOrigin` is emitted exactly once precisely when `eff` differs from
the requested origin; moreover, whenever the index classifies every
pattern with prefix `name@` under one non-empty origin `d` and at least
one such pattern exists, `eff` is that existing origin `d` — so when
`d ≠ flagToOrigin` the existing classification wins and nothing is added
under the requested origin. -/
theorem savePackages_existing_origin_wins (env : Env) (flags : Flags)
    (config : Config) (po : List (String × String))
    (resolve : String → Manifest) (L : List String) (m : RootManifests)
    (p : String) (hp : p ∈ L)
    (hnodup : (L.map fun q => (resolve q).name).Nodup)
    (hinit : ∀ o, o ≠ targetOf flags po (resolve p).name →
        m (resolve p).registry o (resolve p).name = none) :
    ((savePackages env flags config po resolve L m).manifests
        (resolve p).registry (targetOf flags po (resolve p).name)
        (resolve p).name
      = some (getPatternVersion env flags config p (resolve p)))
    ∧ (∀ o, o ≠ targetOf flags po (resolve p).name →
        (savePackages env flags config po resolve L m).manifests
            (resolve p).registry o (resolve p).name = none)
    ∧ ((savePackages env flags config po resolve L m).warnings.filter
          (fun w => w.1 == (resolve p).name)
        = if targetOf flags po (resolve p).name = flagToOrigin flags
          then []
          else [((resolve p).name, targetOf flags po (resolve p).name,
            flagToOrigin flags)])
    ∧ (∀ d : String, d.isEmpty = false →
        (∃ e ∈ po,
          (((resolve p).name ++ "@").data.isPrefixOf e.1.data) = true) →
        (∀ e ∈ po,
          (((resolve p).name ++ "@").data.isPrefixOf e.1.data) = true →
            e.2 = d) →
        targetOf flags po (resolve p).name = d) := by
  obtain ⟨h1, h2, h3⟩ := merge_tracks env flags config po resolve L
    ⟨m, []⟩ p hp hnodup
  refine ⟨h1, fun o ho => ?_, ?_, ?_⟩
  · rw [show (savePackages env flags config po resolve L m).manifests
        = (L.foldl (savePattern env flags config po resolve)
            ⟨m, []⟩).manifests from rfl]
    rw [h2 o ho]
    exact hinit o ho
  · rw [show (savePackages env flags config po resolve L m).warnings
        = (L.foldl (savePattern env flags config po resolve)
            ⟨m, []⟩).warnings from rfl]
    rw [h3]
    rfl
  · intro d hdne hex hall
    exact targetOf_consistent flags po (resolve p).name d hdne hex hall

/-- Witness for C1: adding `lodash@^4.17.21` (requested origin
`dependencies`) while the index classifies `lodash@^1.0.0` under
`devDependencies`: the entry lands under `devDependencies`, nothing is
recorded under `dependencies`, and exactly one conflict warning is
emitted. -/
theorem savePackages_existing_origin_wins_witness :
    ((savePackages envW flagsNone configCaret poW resolveW
        ["lodash@^4.17.21"] m0W).manifests "npm" "devDependencies" "lodash"
      = some "^4.17.21")
    ∧ ((savePackages envW flagsNone configCaret poW resolveW
        ["lodash@^4.17.21"] m0W).manifests "npm" "dependencies" "lodash"
      = none)
    ∧ ((savePackages envW flagsNone configCaret poW resolveW
        ["lodash@^4.17.21"] m0W).warnings.filter (fun w => w.1 == "lodash")
      = [("lodash", "devDependencies", "dependencies")]) := by
  obtain ⟨h1, h2, h3, -⟩ := savePackages_existing_origin_wins envW flagsNone
    configCaret poW resolveW ["lodash@^4.17.21"] m0W "lodash@^4.17.21"
    (by decide) (by decide) (fun o _ => rfl)
  exact ⟨h1, h2 "dependencies" (by decide), h3.trans (by decide)⟩

end YarnAdd
